import Mathlib

/-!
# Verification of the MultiInfoCards card-layout engine

Shallow embedding of the card layout engine of the Power BI visual
`PowerBI-Visual-MultiInfoCards` (current revision, `src/visual.ts`) and proofs
about it.  JavaScript strings are modelled as `List Char`, JavaScript numbers
as `ℚ` where the code stays finite and as `JSNum` (finite / infinities / NaN)
where the code can produce non-finite values.  The external text-measurement
service and the external value formatter are modelled as oracle parameters.
-/

/-! ## JavaScript number model

The layout code divides by a measured text width that can be `0`, so the
character-budget computation must be modelled with the full IEEE special
values.  `JSNum` is a JavaScript number: finite (modelled exactly, as a
rational), positive or negative infinity, or NaN. -/

inductive JSNum where
  | fin (q : ℚ)
  | posInf
  | negInf
  | nan
deriving DecidableEq, Repr

/-- JavaScript division `a / b` for finite `a`, `b`: division by zero yields
an infinity of the sign of the numerator, and `0 / 0` yields NaN. -/
def jsDiv (a b : ℚ) : JSNum :=
  if b = 0 then (if a = 0 then .nan else if 0 < a then .posInf else .negInf)
  else .fin (a / b)

/-- JavaScript multiplication of a nonnegative integer (a string length) with a
`JSNum`: `0 * ±Infinity` is NaN. -/
def jsMulNat (n : ℕ) : JSNum → JSNum
  | .fin q => .fin (n * q)
  | .posInf => if n = 0 then .nan else .posInf
  | .negInf => if n = 0 then .nan else .negInf
  | .nan => .nan

/-- `Math.floor`, which maps NaN and the infinities to themselves. -/
def jsFloor : JSNum → JSNum
  | .fin q => .fin ⌊q⌋
  | x => x

/-- Subtraction of 1, which maps NaN and the infinities to themselves. -/
def jsSub1 : JSNum → JSNum
  | .fin q => .fin (q - 1)
  | x => x

/-- JavaScript comparison `len > m` for a string length `len` and a `JSNum`
`m`: every comparison with NaN is false, and `len > Infinity` is false. -/
def jsLenGt (len : ℕ) : JSNum → Bool
  | .fin q => decide (q < len)
  | .posInf => false
  | .negInf => true
  | .nan => false

/-- The character budget of `fitMultiLineLongText` and
`calculateMultiLineTextHeight` (src/visual.ts:603 and :632):
`Math.floor(textLength * (elementWidth / textWidth)) - 1`.
When `textWidth` is `0` this produces Infinity (nonempty text) or NaN (empty
text, because `0 * Infinity` is NaN). -/
def maxCharsPerLineJS (textLength : ℕ) (elementWidth textWidth : ℚ) : JSNum :=
  jsSub1 (jsFloor (jsMulNat textLength (jsDiv elementWidth textWidth)))

/-! ## Text splitting and wrapping (`Visual.separateTextInLines`)

`src/visual.ts:574-591`.  JavaScript strings are `List Char`. -/

/-- `text.split(' ')` of JavaScript: splits on every single space, keeping
empty pieces, and returns `[""]` for the empty string. -/
def splitOnSpaceAux : List Char → List Char → List (List Char)
  | [], cur => [cur.reverse]
  | c :: cs, cur =>
      if c = ' ' then cur.reverse :: splitOnSpaceAux cs []
      else splitOnSpaceAux cs (c :: cur)

def splitOnSpace (t : List Char) : List (List Char) :=
  splitOnSpaceAux t []

/-- Greedy chunking of one maximal non-terminator run by the global regex
match `.\x7b1,m\x7d` for an integer budget `m ≥ 1`: consecutive chunks of at
most `m` characters.  The fuel argument (instantiated with the length of the
run) makes the recursion structural; it never runs out when `m ≥ 1`. -/
def chunkListAux : ℕ → ℕ → List Char → List (List Char)
  | _, _, [] => []
  | 0, _, l => [l]
  | fuel + 1, m, l => l.take m :: chunkListAux fuel m (l.drop m)

def chunkList (m : ℕ) (l : List Char) : List (List Char) :=
  chunkListAux l.length m l

/-- The JavaScript `null` value appended by `Array.concat` when a word fails
to match, as it is later stringified by the `+` concatenation in the loop. -/
def nullWord : List Char := ['n', 'u', 'l', 'l']

/-- Is `c` a JavaScript line terminator, which the regex `.` (without the
`s` flag) does not match: `\n`, `\r`, U+2028 or U+2029. -/
def isLineTerminator (c : Char) : Bool :=
  c == '\n' || c == '\r' || c == '\u2028' || c == '\u2029'

/-- The maximal runs of non-line-terminator characters of a word, in order:
exactly the substrings a global `.`-based regex can match in. -/
def nonTermRunsAux : List Char → List Char → List (List Char)
  | [], cur => if cur = [] then [] else [cur.reverse]
  | c :: cs, cur =>
      if isLineTerminator c
      then (if cur = [] then [] else [cur.reverse]) ++ nonTermRunsAux cs []
      else nonTermRunsAux cs (c :: cur)

def nonTermRuns (w : List Char) : List (List Char) :=
  nonTermRunsAux w []

/-- One step of
`text.split(' ').map(word => word.match(new RegExp('.\x7b1,' + maxLineLength + '\x7d', 'g')))`
(src/visual.ts:575-576).  For a finite integer budget `m ≥ 1` the pattern is
the quantified dot `.\x7b1,m\x7d`; since `.` does not match line terminators,
the global match returns the maximal non-terminator runs of the word, each
greedily cut into chunks of at most `m` characters, left to right.  A word
with no such run — the empty word, or one made only of line terminators —
fails the match, so `match` returns `null`, which `concat` appends and the
loop later stringifies as `"null"`.  For NaN, the infinities and negative
budgets the brace quantifier is syntactically invalid, so (JavaScript
Annex B) the pattern is matched literally and fails on every word considered
in this development, again giving `null`.  A budget of exactly `0` would make
the `RegExp` constructor throw a `SyntaxError` ("numbers out of order"); that
case is modelled by the same `null` marker and is exercised by no theorem
below. -/
def matchChunks (m : JSNum) (w : List Char) : List (List Char) :=
  match m with
  | .fin q =>
      if 1 ≤ q then
        if nonTermRuns w = [] then [nullWord]
        else ((nonTermRuns w).map (chunkList (⌊q⌋).toNat)).foldl (· ++ ·) []
      else [nullWord]
  | _ => [nullWord]

/-- The accumulation loop of `separateTextInLines` (src/visual.ts:579-588):
greedily packs the (chunked) words into lines.  When adding the next word plus
a separating space would exceed the budget, the current building line is
pushed (`slice(1)` — here `List.drop 1` — strips its leading space) and the
building line restarts empty; the word is then appended as `' ' + word`; at
the last word the final building line is pushed as well. -/
def linesLoop (m : JSNum) : List Char → List (List Char) → List (List Char)
  | _, [] => []
  | bl, [w] =>
      if jsLenGt (bl ++ ' ' :: w).length m
      then [bl.drop 1, (' ' :: w).drop 1]
      else [(bl ++ ' ' :: w).drop 1]
  | bl, w :: w2 :: rest =>
      if jsLenGt (bl ++ ' ' :: w).length m
      then bl.drop 1 :: linesLoop m (' ' :: w) (w2 :: rest)
      else linesLoop m (bl ++ ' ' :: w) (w2 :: rest)

/-- `Visual.separateTextInLines` (src/visual.ts:574-591): split the text into
words, chunk each word by the regex, pack the pieces into lines, and drop
empty lines (`filter(l => l.length)`). -/
def separateTextInLines (text : List Char) (maxLineLength : JSNum) : List (List Char) :=
  let splittedWords := ((splitOnSpace text).map (matchChunks maxLineLength)).foldl (· ++ ·) []
  (linesLoop maxLineLength [] splittedWords).filter (fun l => l ≠ [])

/-- `Array.join(' ')`: join a list of lines (or of words) with single spaces. -/
def joinSp : List (List Char) → List Char
  | [] => []
  | [l] => l
  | l :: ls => l ++ ' ' :: joinSp ls

/-! ## Heights (`Visual.calculateMultiLineTextHeight`, `calculateInformationHeights`)

`src/visual.ts:624-648`.  The external text-measurement service
`textMeasurementService.measureSvgTextWidth` is an oracle `measureW` already
specialised to the configured font family and size (the source passes
`fontFamily`/`fontSize` through to the service and uses them nowhere else). -/

/-- `Visual.calculateMultiLineTextHeight` (src/visual.ts:624-638): measure the
text, derive the character budget, split into lines, and return
`lineCount * fontHeight`. -/
def calculateMultiLineTextHeight (measureW : List Char → ℚ) (text : List Char)
    (cardWidth fontHeight : ℚ) : ℚ :=
  let textWidth := measureW text
  let maxCharsPerLine := maxCharsPerLineJS text.length cardWidth textWidth
  let splittedText := separateTextInLines text maxCharsPerLine
  (splittedText.length : ℚ) * fontHeight

/-- A JavaScript primitive value as it appears in a data view cell. -/
inductive JSVal where
  | null
  | str (s : List Char)
  | num (q : ℚ)
  | boolean (b : Bool)
deriving DecidableEq, Repr

/-- JavaScript `v.toString()` as used on formatted card values
(src/visual.ts:644).  The stringification of numbers is approximated by the
decimal representation of the rational.  On an actual `null` the source would
throw a `TypeError` (`toString` of null); the embedding totalises that case
with the string `"null"` — every theorem below applies this function to
non-null string values only, so nothing rests on the totalisation. -/
def jsValToString : JSVal → List Char
  | .null => nullWord
  | .str s => s
  | .num q => (toString q).toList
  | .boolean b => (toString b).toList

/-- One card record, as built by `visualTransform` (src/visual.ts:194-203).
The `tooltipFields`/`tooltipValues` and the opaque `selectionId` play no role
in any claim and are omitted. -/
structure CardDataPoint where
  title : JSVal
  fields : List (List Char)
  values : List JSVal
  image : JSVal
  highlights : Bool
deriving DecidableEq, Repr

/-- `Visual.calculateInformationHeights` (src/visual.ts:640-648): the wrapped
height of every value of one record. -/
def calculateInformationHeights (measureW : List Char → ℚ) (fontHeight maxWidth : ℚ)
    (information : CardDataPoint) : List ℚ :=
  information.values.map
    (fun v => calculateMultiLineTextHeight measureW (jsValToString v) maxWidth fontHeight)

/-- The per-record height matrix built in `Visual.update` (src/visual.ts:346-348). -/
def informationHeights (measureW : List Char → ℚ) (fontHeight contentWidth : ℚ)
    (dataPoints : List CardDataPoint) : List (List ℚ) :=
  dataPoints.map (calculateInformationHeights measureW fontHeight contentWidth)

/-- The row count used by `d3.transpose`: the minimum row length of the
matrix (`d3.min(matrix, length)`), `0` for an empty matrix. -/
def minRowLen : List (List ℚ) → ℕ
  | [] => 0
  | r :: rs => rs.foldl (fun a row => min a row.length) r.length

/-- `d3.transpose`: `transpose[i][j] = matrix[j][i]` for `i` below the minimum
row length and `j` over all rows; the empty matrix transposes to `[]`. -/
def d3transpose (M : List (List ℚ)) : List (List ℚ) :=
  match M with
  | [] => []
  | _ :: _ => (List.range (minRowLen M)).map (fun i => M.map (fun row => row.getD i 0))

/-- The reducer `(a, b) => a > b ? a + 2 : b + 2` applied by `Visual.update`
to every transposed column (src/visual.ts:349).  JavaScript `reduce` without
an initial value starts from the first element; it is only ever applied to
nonempty columns (the `[]` case, on which `reduce` would throw, is given the
junk value `0`). -/
def longestReduce : List ℚ → ℚ
  | [] => 0
  | h :: t => t.foldl (fun a b => if a > b then a + 2 else b + 2) h

/-- `longestHeights` of `Visual.update` (src/visual.ts:349): the shared row
height for each field index. -/
def longestHeights (measureW : List Char → ℚ) (fontHeight contentWidth : ℚ)
    (dataPoints : List CardDataPoint) : List ℚ :=
  (d3transpose (informationHeights measureW fontHeight contentWidth dataPoints)).map
    longestReduce

/-! ## Grid geometry (`positionCardInGrid`, `calculateTotalSVGHeight`)

`src/visual.ts:549-561`. -/

/-- `Visual.positionCardInGrid` (src/visual.ts:549-555).  The source formats
the pair into the SVG string `translate(x, y)`; the embedding returns the pair
`(x, y)` itself.  When `maxPerRow = 0` the JavaScript divisions produce
Infinity/NaN where this rational model produces `0`; every theorem below
assumes `maxPerRow ≥ 1` (and `Visual.update` bails out before that case,
see `updateGeometry`). -/
def positionCardInGrid (position : ℕ) (elementWidth elementHeight containerWidth : ℚ) :
    ℚ × ℚ :=
  let maxPerRow : ℤ := ⌊containerWidth / elementWidth⌋
  let x : ℚ := ((position : ℚ) - ((maxPerRow : ℚ) * ((⌊(position : ℚ) / (maxPerRow : ℚ)⌋ : ℤ) : ℚ))) * elementWidth
  let y : ℚ := ((⌊(position : ℚ) / (maxPerRow : ℚ)⌋ : ℤ) : ℚ) * elementHeight
  (x, y)

/-- `Visual.calculateTotalSVGHeight` (src/visual.ts:557-561):
`Math.ceil(dataLength / Math.floor(containerWidth / elementWidth)) * elementHeight`. -/
def calculateTotalSVGHeight (dataLength : ℕ) (elementWidth elementHeight containerWidth : ℚ) :
    ℚ :=
  ((⌈(dataLength : ℚ) / ((⌊containerWidth / elementWidth⌋ : ℤ) : ℚ)⌉ : ℤ) : ℚ) * elementHeight

/-- The clamped card width of `Visual.update` (src/visual.ts:328):
`d3.min([d3.max([150, width]), 1200])`. -/
def cardWidthOf (width : ℚ) : ℚ :=
  min (max 150 width) 1200

/-- `Visual.getElementOpacity` (src/visual.ts:650-652):
`(1 - transparency / 100) * (highlighted ? 1 : 0.4)`. -/
def getElementOpacity (transparency : ℚ) (highlighted : Bool) : ℚ :=
  (1 - transparency / 100) * (if highlighted then 1 else 0.4)

/-! ## Value formatting (`formatDataViewValues`)

`src/visual.ts:246-259`.  The external
`powerbi-visuals-utils-formattingutils` value formatter and `d3.isoParse` are
modelled as an oracle. -/

/-- The external formatting services used by `formatDataViewValues`:
`valueFormatter.create(\x7bformat\x7d).format`,
`valueFormatter.create(\x7bvalue: displayUnits\x7d).format` and `d3.isoParse`. -/
structure FormatterOracle where
  formatWith : String → JSVal → JSVal
  formatUnits : String → JSVal → JSVal
  isoParse : JSVal → JSVal

/-- `formatDataViewValues` (src/visual.ts:246-259).  `type` is the column data
type string produced by `getColumnDataType`; `format` is the optional format
pattern (`null`/`undefined` is `none`).  Branch order follows the source: a
present format wins (parsing dates first when the type is `dateTime`), then
the numeric display-units path, else the value is returned unchanged. -/
def formatDataViewValues (o : FormatterOracle) (value : JSVal) (type : String)
    (format : Option String) (displayUnits : String) : JSVal :=
  match format with
  | some f => if type ≠ "dateTime" then o.formatWith f value
              else o.formatWith f (o.isoParse value)
  | none => if type = "numeric" then o.formatUnits displayUnits value
            else value

/-! ## The data-view model and `visualTransform`

`src/visual.ts:132-210`.  Only the pieces of the Power BI data view that the
transform reads are modelled.  `getColumnDataType` maps the host type
descriptor to a string; the embedding stores that string directly on the
column.  The selection-id builder and the palette are out of scope. -/

/-- One column of `dataView.categorical.values`. -/
structure ValueColumn where
  roleInformations : Bool
  roleImages : Bool
  roleTooltips : Bool
  displayName : List Char
  dataType : String
  format : Option String
  values : List JSVal
  highlights : Option (List Bool)
deriving Repr

/-- `dataView.categorical`: the category columns (each reduced to its value
list) and the measure columns; either may be absent. -/
structure Categorical where
  categories : Option (List (List JSVal))
  values : Option (List ValueColumn)

/-- A data view; `categorical` may be absent. -/
structure DataView where
  categorical : Option Categorical

/-- The host update options: the (possibly empty) data-view array and the
viewport width. -/
structure UpdateOptions where
  dataViews : List DataView
  viewportWidth : ℚ

/-- The card settings read by the modelled geometry: the configured card
width, the background transparency, the display-units mode, and the font
settings routed to the measurement oracles. -/
structure CardSettings where
  cardWidth : ℚ
  transparency : ℚ
  displayUnits : String
  titleFontFamily : String
  titleFontSize : String
  fieldsFontFamily : String
  fieldsFontSize : String
  valuesFontFamily : String
  valuesFontSize : String

/-- The view model returned by `visualTransform`.  On the guard path the
source returns `settings: <CardSettings>\x7b\x7d` — an empty object whose
properties are all `undefined` — modelled as `none`. -/
structure CardViewModel where
  dataPoints : List CardDataPoint
  settings : Option CardSettings

/-- `visualTransform` (src/visual.ts:132-210).  Returns the empty view model
when the data view, its categorical or its values are absent; afterwards it
dereferences `categorical.categories[0]` and `categorical.values[0]`
unguardedly, which throws a `TypeError` when categories are missing or the
values array is empty — modelled as `Except.error`. -/
def visualTransform (fo : FormatterOracle) (options : UpdateOptions)
    (vs : CardSettings) : Except String CardViewModel :=
  match options.dataViews.head? with
  | none => .ok ⟨[], none⟩
  | some dv =>
    match dv.categorical with
    | none => .ok ⟨[], none⟩
    | some cat =>
      match cat.values with
      | none => .ok ⟨[], none⟩
      | some cols =>
        match cat.categories.bind List.head? with
        | none => .error ("TypeError: cannot read values of undefined")
        | some titles =>
          match cols.head? with
          | none => .error ("TypeError: cannot read highlights of undefined")
          | some firstCol =>
            let informations := cols.filter (·.roleInformations)
            let images := (cols.filter (·.roleImages)).head?
            let highlights := firstCol.highlights
            let dataPoints := (List.range titles.length).map (fun i =>
              ({ title := titles.getD i .null,
                 fields := informations.map (·.displayName),
                 values := informations.map (fun c =>
                   formatDataViewValues fo (c.values.getD i .null) c.dataType
                     c.format vs.displayUnits),
                 image := (match images with
                   | some c => c.values.getD i .null
                   | none => .null),
                 highlights := (match highlights with
                   | some hs => hs.getD i false
                   | none => true) } : CardDataPoint))
            .ok ⟨dataPoints, some vs⟩

/-! ## The geometry pass of `Visual.update`

`src/visual.ts:313-366`.  The DOM rendering, tooltips and selection wiring
that follow are out of scope; the embedding computes the geometric outputs:
clamped card width, card height, canvas height and all grid positions. -/

/-- The external text-measurement oracles used by `Visual.update`:
`measureSvgTextHeight` (per font family and size, content-independent: the
source always measures the fixed reference string) and `measureSvgTextWidth`
(per font family, size and text). -/
structure Oracles where
  measureHeight : String → String → ℚ
  measureWidth : String → String → List Char → ℚ

/-- The geometric outputs of one update pass. -/
structure LayoutGeom where
  cardWidth : ℚ
  cardHeight : ℚ
  canvasHeight : ℚ
  positions : List (ℚ × ℚ)
deriving DecidableEq, Repr

/-- The geometry part of `Visual.update` (src/visual.ts:313-366) after
`visualTransform`.  `Except.error` models a thrown `TypeError`;
`Except.ok none` models the early `return` at line 338 (no layout produced).
Faithful points: the empty settings object throws at the first property
dereference (line 328, `this.cardSettings.cardBackground.width`); the early
return happens before any font or height measurement; the card height
dereferences `this.cardDataPoints[0]` (line 354), which throws on an empty
record list. -/
def updateGeometry (o : Oracles) (vm : CardViewModel) (viewportWidth : ℚ) :
    Except String (Option LayoutGeom) :=
  let hasImages := (vm.dataPoints.filter (fun p => p.image ≠ JSVal.null)).length ≠ 0
  match vm.settings with
  | none => .error ("TypeError: cannot read width of undefined")
  | some settings =>
    let cardPadding : ℚ := 15
    let containerWidth := viewportWidth
    let cardWidth := cardWidthOf settings.cardWidth
    let contentWidth := cardWidth - 2 * cardPadding
    let imageHeight : ℚ := 24 * (1 / 2 + ((⌊cardWidth / 100⌋ : ℤ) : ℚ))
    if containerWidth < cardWidth then .ok none
    else
      let titleFontHeight := o.measureHeight settings.titleFontFamily settings.titleFontSize
      let fieldsFontHeight := o.measureHeight settings.fieldsFontFamily settings.fieldsFontSize
      let valuesFontHeight := o.measureHeight settings.valuesFontFamily settings.valuesFontSize
      let measureW := o.measureWidth settings.valuesFontFamily settings.valuesFontSize
      let lh := longestHeights measureW valuesFontHeight contentWidth vm.dataPoints
      let totalLongestHeight := lh.foldl (· + ·) 0
      match vm.dataPoints.head? with
      | none => .error ("TypeError: cannot read fields of undefined")
      | some p0 =>
        let cardHeight := 30 + totalLongestHeight
          + fieldsFontHeight * (p0.fields.length : ℚ)
          + (if hasImages then max titleFontHeight imageHeight else titleFontHeight * 2)
        let canvasHeight :=
          calculateTotalSVGHeight vm.dataPoints.length cardWidth cardHeight containerWidth
        let positions := (List.range vm.dataPoints.length).map
          (fun i => positionCardInGrid i cardWidth cardHeight containerWidth)
        .ok (some ⟨cardWidth, cardHeight, canvasHeight, positions⟩)

/-- `Visual.update` end to end (data transform then geometry).  The parsed
visual settings are supplied directly (`VisualSettings.parse` is host code). -/
def updateMain (o : Oracles) (fo : FormatterOracle) (options : UpdateOptions)
    (vs : CardSettings) : Except String (Option LayoutGeom) :=
  match visualTransform fo options vs with
  | .error e => .error e
  | .ok vm => updateGeometry o vm options.viewportWidth

/-! ## Concrete sample inputs used by the closed theorems below -/

/-- A formatter oracle that returns every value unchanged; the branches of
`formatDataViewValues` exercised by the closed theorems below do not call the
oracle, so its choice is irrelevant there. -/
def trivialFormatter : FormatterOracle :=
  ⟨fun _ v => v, fun _ v => v, fun v => v⟩

/-- Measurement oracles returning the fixed width and height 10. -/
def sampleOracles : Oracles :=
  { measureHeight := fun _ _ => 10, measureWidth := fun _ _ _ => 10 }

/-- A width oracle returning 10 for every text. -/
def constWidth10 : List Char → ℚ := fun _ => 10

/-- Parsed visual settings with the card width configured to 700. -/
def sampleSettings : CardSettings :=
  { cardWidth := 700, transparency := 0, displayUnits := "",
    titleFontFamily := "Arial", titleFontSize := "12pt",
    fieldsFontFamily := "Arial", fieldsFontSize := "10pt",
    valuesFontFamily := "Arial", valuesFontSize := "10pt" }

/-- A card record with a single information value `"ab"`. -/
def samplePoint : CardDataPoint :=
  { title := JSVal.str ['T'], fields := [['F']], values := [JSVal.str ['a', 'b']],
    image := JSVal.null, highlights := true }

/-- A measure column carrying the `informations` role with one value. -/
def sampleInfoColumn : ValueColumn :=
  { roleInformations := true, roleImages := false, roleTooltips := false,
    displayName := ['F'], dataType := "text", format := none,
    values := [JSVal.str ['a', 'b']], highlights := none }

/-- An update whose viewport (100 px) is narrower than the clamped card
width (700 px), with one well-formed record bound. -/
def narrowOptions : UpdateOptions :=
  { dataViews := [⟨some ⟨some [[JSVal.str ['T']]], some [sampleInfoColumn]⟩⟩],
    viewportWidth := 100 }

/-- An update whose data view has a category bound but no value columns at
all (`categorical.values` is absent): a valid-but-empty host input. -/
def emptyValuesOptions : UpdateOptions :=
  { dataViews := [⟨some ⟨some [[JSVal.str ['T']]], none⟩⟩],
    viewportWidth := 500 }

/-! ## C6 — card-width clamping -/

/-- C6: for every numeric card-width setting the effective card width
`cardWidthOf` lies in `[150, 1200]`; it is `150` below `150`, `1200` above
`1200`, and the setting itself in between. -/
theorem c6_cardWidth_clamp (w : ℚ) :
    (150 ≤ cardWidthOf w ∧ cardWidthOf w ≤ 1200)
    ∧ (w < 150 → cardWidthOf w = 150)
    ∧ (1200 < w → cardWidthOf w = 1200)
    ∧ (150 ≤ w → w ≤ 1200 → cardWidthOf w = w) := by
  unfold cardWidthOf
  refine ⟨⟨le_min (le_max_left _ _) (by norm_num), min_le_right _ _⟩, ?_, ?_, ?_⟩
  · intro h
    rw [max_eq_left h.le]
    norm_num
  · intro h
    rw [min_eq_right (le_max_of_le_right h.le)]
  · intro h1 h2
    rw [max_eq_right h1, min_eq_left h2]

/-- Witness for C6 at the concrete setting `10`. -/
theorem c6_cardWidth_clamp_witness : cardWidthOf 10 = 150 :=
  (c6_cardWidth_clamp 10).2.1 (by norm_num)

/-! ## C10 — opacity bounds -/

/-- C10: for every transparency `t ∈ [0, 100]` and every highlight flag, the
opacity `getElementOpacity t h = (1 - t/100) * (h ? 1 : 0.4)` assigned during
the highlight pass and during selection sync lies in `[0, 1]`. -/
theorem c10_opacity_bounds (t : ℚ) (h0 : 0 ≤ t) (h100 : t ≤ 100) (hl : Bool) :
    0 ≤ getElementOpacity t hl ∧ getElementOpacity t hl ≤ 1 := by
  have hdiv0 : 0 ≤ t / 100 := by positivity
  have hdiv1 : t / 100 ≤ 1 := by
    rw [div_le_one (by norm_num : (0:ℚ) < 100)]
    linarith
  unfold getElementOpacity
  split_ifs
  · constructor <;> nlinarith
  · constructor <;> nlinarith

/-- Witness for C10 at transparency 50 with the dim factor. -/
theorem c10_opacity_bounds_witness :
    0 ≤ getElementOpacity 50 false ∧ getElementOpacity 50 false ≤ 1 :=
  c10_opacity_bounds 50 (by norm_num) (by norm_num) false

/-! ## C4 — formatter and `(Blank)` -/

/-- C4 (counterexample): on the current revision the formatter has no
`(Blank)` handling at all: a `null` value with no format pattern and a
non-numeric type is returned unchanged as `null`, not as the string
`"(Blank)"`. -/
theorem c4_null_not_blank :
    formatDataViewValues trivialFormatter JSVal.null "text" none "" = JSVal.null
    ∧ JSVal.null ≠ JSVal.str ['(', 'B', 'l', 'a', 'n', 'k', ')'] := by
  decide

/-- C4 (amended): with no format pattern and a non-numeric type,
`formatDataViewValues` returns the input value unchanged — `null` stays
`null` and whitespace-only strings pass through; no `(Blank)` substitution
happens in this revision. -/
theorem c4_no_format_passthrough (o : FormatterOracle) (v : JSVal) (type : String)
    (du : String) (ht : type ≠ "numeric") :
    formatDataViewValues o v type none du = v := by
  unfold formatDataViewValues
  rw [if_neg ht]

/-- Witness for C4 (amended): a whitespace-only string passes through. -/
theorem c4_no_format_passthrough_witness :
    formatDataViewValues trivialFormatter (JSVal.str [' ']) "text" none "" = JSVal.str [' '] :=
  c4_no_format_passthrough trivialFormatter (JSVal.str [' ']) "text" "" (by decide)

/-! ## C5 — zero measured width -/

/-- C5: the character-budget computation has no divide-by-zero guard: for the
empty string with measured width `0`, `maxCharsPerLineJS` evaluates to NaN
(`0 * Infinity`), the NaN budget is propagated into `separateTextInLines`
(which then produces the spurious single line `"null"`, the stringified
`null` of the failed regex match, not the full text), and
`calculateMultiLineTextHeight` returns one line height for it. -/
theorem c5_zero_width_unguarded :
    maxCharsPerLineJS (([] : List Char)).length 100 0 = JSNum.nan
    ∧ separateTextInLines [] (maxCharsPerLineJS 0 100 0) = [nullWord]
    ∧ calculateMultiLineTextHeight (fun _ => 0) [] 100 10 = 10 := by
  refine ⟨by decide, by decide, ?_⟩
  have h1 : separateTextInLines [] (maxCharsPerLineJS 0 100 0) = [nullWord] := by decide
  simp only [calculateMultiLineTextHeight, List.length_nil, h1, List.length_singleton]
  norm_num

/-! ## C2 — container narrower than one card -/

/-- C2: when the container (100 px) is narrower than the clamped card width
(700 px) the engine does not produce a single-column layout: `Visual.update`
returns early with no layout at all (`Except.ok none`), and the per-row count
it would have divided by is `0`, not at least `1`. -/
theorem c2_early_return_no_layout :
    updateMain sampleOracles trivialFormatter narrowOptions sampleSettings = Except.ok none
    ∧ ⌊(100 : ℚ) / cardWidthOf sampleSettings.cardWidth⌋ = 0 := by
  constructor
  · rfl
  · norm_num [cardWidthOf, sampleSettings, Int.floor_eq_iff]

/-! ## C3 — update throws across the host boundary -/

/-- C3: on a host update whose data view has no value columns bound
(`categorical.values` absent — a valid empty input), `visualTransform`
returns the empty settings object and `Visual.update` then throws a
`TypeError` dereferencing `this.cardSettings.cardBackground.width`
(src/visual.ts:328) instead of completing with an empty-but-valid canvas. -/
theorem c3_update_throws :
    updateMain sampleOracles trivialFormatter emptyValuesOptions sampleSettings
      = Except.error ("TypeError: cannot read width of undefined") := by
  rfl

/-! ## C7, C8 — grid position and canvas height -/

/-- The floor of the rational division of two naturals is natural division. -/
lemma floor_cast_nat_div (i p : ℕ) : ⌊(i : ℚ) / (p : ℚ)⌋ = ((i / p : ℕ) : ℤ) := by
  have h0 : (0:ℚ) ≤ (i : ℚ) / (p : ℚ) := by positivity
  rw [← Int.toNat_of_nonneg (Int.floor_nonneg.2 h0), Int.floor_toNat, Nat.floor_div_eq_div]

/-- C7: with `perRow = ⌊containerWidth / cardWidth⌋ ≥ 1`, the grid position of
the `i`-th card is `((i mod perRow) * cardWidth, (i div perRow) * cardHeight)`;
in particular card `0` sits at `(0, 0)` and card `perRow` at `(0, cardHeight)`. -/
theorem c7_grid_position (i : ℕ) (w h W : ℚ) (hp : 1 ≤ ⌊W / w⌋) :
    positionCardInGrid i w h W
      = (((i % (⌊W / w⌋).toNat : ℕ) : ℚ) * w, ((i / (⌊W / w⌋).toNat : ℕ) : ℚ) * h)
    ∧ positionCardInGrid 0 w h W = (0, 0)
    ∧ positionCardInGrid ((⌊W / w⌋).toNat : ℕ) w h W = (0, h) := by
  obtain ⟨P, hP⟩ : ∃ P : ℕ, ⌊W / w⌋ = (P : ℤ) :=
    ⟨(⌊W / w⌋).toNat, (Int.toNat_of_nonneg (by linarith)).symm⟩
  have hP1 : 1 ≤ P := by exact_mod_cast hP ▸ hp
  have key : ∀ j : ℕ, positionCardInGrid j w h W
      = (((j % P : ℕ) : ℚ) * w, ((j / P : ℕ) : ℚ) * h) := by
    intro j
    simp only [positionCardInGrid, hP, Int.cast_natCast, floor_cast_nat_div, Prod.mk.injEq]
    constructor
    · have hq : (j : ℚ) = (P : ℚ) * ((j / P : ℕ) : ℚ) + ((j % P : ℕ) : ℚ) := by
        exact_mod_cast (Nat.div_add_mod j P).symm
      have hscal : ((j : ℚ) - (P : ℚ) * ((j / P : ℕ) : ℚ)) = ((j % P : ℕ) : ℚ) := by
        linarith
      rw [hscal]
    · ring_nf
  have htn : (⌊W / w⌋).toNat = P := by rw [hP, Int.toNat_natCast]
  rw [htn]
  refine ⟨key i, ?_, ?_⟩
  · rw [key 0]
    norm_num
  · rw [key P, Nat.mod_self, Nat.div_self (by omega : 0 < P)]
    norm_num

/-- Witness for C7: container 700, card 300×100 (`perRow = 2`), card index 5
lands at `(300, 200)` (second column, third row). -/
theorem c7_grid_position_witness : positionCardInGrid 5 300 100 700 = (300, 200) := by
  have hfl : ⌊(700:ℚ) / 300⌋ = 2 := by
    rw [Int.floor_eq_iff]
    constructor <;> norm_num
  have h := (c7_grid_position 5 300 100 700 (by rw [hfl]; norm_num)).1
  rw [h, hfl]
  have h2 : Int.toNat 2 = 2 := rfl
  rw [h2]
  norm_num

/-- C8: with `perRow = ⌊containerWidth / cardWidth⌋ ≥ 1`, the canvas height is
`0` for zero records, and equals `k * cardHeight` exactly whenever
`perRow * (k-1) < recordCount ≤ perRow * k` — that is,
`ceil(recordCount / perRow) * cardHeight`. -/
theorem c8_canvas_height (n : ℕ) (w h W : ℚ) (hp : 1 ≤ ⌊W / w⌋) :
    (n = 0 → calculateTotalSVGHeight n w h W = 0)
    ∧ (∀ k : ℕ, (⌊W / w⌋).toNat * (k - 1) < n → n ≤ (⌊W / w⌋).toNat * k →
        calculateTotalSVGHeight n w h W = (k : ℚ) * h) := by
  have hPz : (((⌊W / w⌋).toNat : ℕ) : ℤ) = ⌊W / w⌋ := Int.toNat_of_nonneg (by linarith)
  have hP1 : 1 ≤ (⌊W / w⌋).toNat := by omega
  have hP0 : (0:ℚ) < ((⌊W / w⌋).toNat : ℚ) := by exact_mod_cast hP1
  constructor
  · intro hn
    subst hn
    simp [calculateTotalSVGHeight]
  · intro k h1 h2
    have hk1 : 1 ≤ k := by
      rcases Nat.eq_zero_or_pos k with rfl | hk
      · simp at h1 h2
        omega
      · exact hk
    unfold calculateTotalSVGHeight
    rw [← hPz]
    have h1q : ((⌊W / w⌋).toNat : ℚ) * ((k : ℚ) - 1) < (n : ℚ) := by
      have h1c : (((⌊W / w⌋).toNat * (k - 1) : ℕ) : ℚ) < (n : ℚ) := by exact_mod_cast h1
      rwa [Nat.cast_mul, Nat.cast_sub hk1, Nat.cast_one] at h1c
    have h2q : (n : ℚ) ≤ ((⌊W / w⌋).toNat : ℚ) * (k : ℚ) := by exact_mod_cast h2
    have hceil : ⌈(n : ℚ) / (((((⌊W / w⌋).toNat : ℕ) : ℤ)) : ℚ)⌉ = (k : ℤ) := by
      rw [Int.ceil_eq_iff]
      push_cast
      constructor
      · rw [lt_div_iff₀ hP0, mul_comm]
        linarith
      · rw [div_le_iff₀ hP0, mul_comm ((k:ℚ))]
        linarith
    rw [hceil]
    push_cast
    ring_nf

/-- Witness for C8: 5 records, container 700, card 300×50 (`perRow = 2`,
`k = 3` rows) give canvas height 150. -/
theorem c8_canvas_height_witness : calculateTotalSVGHeight 5 300 50 700 = 150 := by
  have hfl : ⌊(700:ℚ) / 300⌋ = 2 := by
    rw [Int.floor_eq_iff]
    constructor <;> norm_num
  have h := (c8_canvas_height 5 300 50 700 (by rw [hfl]; norm_num)).2 3
    (by rw [hfl]; decide) (by rw [hfl]; decide)
  rw [h]
  norm_num

/-! ## C1 — shared row heights -/

/-- The start value of the reducer fold is a lower bound of its result. -/
lemma le_foldl_step (t : List ℚ) :
    ∀ h : ℚ, h ≤ t.foldl (fun a b => if a > b then a + 2 else b + 2) h := by
  induction t with
  | nil =>
    intro h
    simp
  | cons b t ih =>
    intro h
    rw [List.foldl_cons]
    refine le_trans ?_ (ih _)
    by_cases hab : h > b
    · rw [if_pos hab]
      linarith
    · rw [if_neg hab]
      push_neg at hab
      linarith

/-- Every element folded in is a lower bound of the reducer result. -/
lemma mem_le_foldl_step (t : List ℚ) :
    ∀ (h x : ℚ), x ∈ t → x ≤ t.foldl (fun a b => if a > b then a + 2 else b + 2) h := by
  induction t with
  | nil =>
    intro h x hx
    simp at hx
  | cons b t ih =>
    intro h x hx
    rw [List.foldl_cons]
    rcases List.mem_cons.1 hx with rfl | hx2
    · refine le_trans ?_ (le_foldl_step t _)
      by_cases hab : h > x
      · rw [if_pos hab]
        linarith
      · rw [if_neg hab]
        linarith
    · exact ih _ x hx2

/-- Every element of a column is a lower bound of its reduced row height. -/
lemma mem_le_longestReduce (l : List ℚ) (x : ℚ) (hx : x ∈ l) : x ≤ longestReduce l := by
  cases l with
  | nil => simp at hx
  | cons h t =>
    show x ≤ t.foldl (fun a b => if a > b then a + 2 else b + 2) h
    rcases List.mem_cons.1 hx with rfl | hx2
    · exact le_foldl_step t x
    · exact mem_le_foldl_step t h x hx2

/-- The running minimum of row lengths is at most its start value. -/
lemma foldl_min_le_init (rs : List (List ℚ)) :
    ∀ a : ℕ, rs.foldl (fun acc row => min acc row.length) a ≤ a := by
  induction rs with
  | nil =>
    intro a
    simp
  | cons r rs ih =>
    intro a
    rw [List.foldl_cons]
    exact le_trans (ih _) (min_le_left _ _)

/-- The running minimum of row lengths is at most every folded row length. -/
lemma foldl_min_le_mem (rs : List (List ℚ)) :
    ∀ (a : ℕ) (row : List ℚ), row ∈ rs →
      rs.foldl (fun acc row => min acc row.length) a ≤ row.length := by
  induction rs with
  | nil =>
    intro a row h
    simp at h
  | cons r rs ih =>
    intro a row h
    rw [List.foldl_cons]
    rcases List.mem_cons.1 h with rfl | h2
    · exact le_trans (foldl_min_le_init rs _) (min_le_right _ _)
    · exact ih _ row h2

/-- `minRowLen` is at most the length of every row. -/
lemma minRowLen_le (M : List (List ℚ)) (row : List ℚ) (h : row ∈ M) :
    minRowLen M ≤ row.length := by
  cases M with
  | nil => simp at h
  | cons r rs =>
    show rs.foldl (fun acc row => min acc row.length) r.length ≤ row.length
    rcases List.mem_cons.1 h with rfl | h2
    · exact foldl_min_le_init rs _
    · exact foldl_min_le_mem rs _ row h2

/-- `d3transpose` of a nonempty matrix, written as a map over row indices. -/
lemma d3transpose_ne_nil (M : List (List ℚ)) (hM : M ≠ []) :
    d3transpose M = (List.range (minRowLen M)).map (fun i => M.map (fun row => row.getD i 0)) := by
  cases M with
  | nil => exact absurd rfl hM
  | cons a l => rfl

/-- C1 (amended): the shared row height `longestHeights[j]` is an upper bound
of the wrapped height of every record value at field index `j` — every card
uses the same row height per field index, and no value is taller than it.
(The reducer adds a 2-pixel pad at every fold step, so with two or more
records it strictly exceeds the maximum instead of equalling it; see
`c1_counterexample`.) -/
theorem c1_rowHeight_upper_bound (measureW : List Char → ℚ) (fh cw : ℚ)
    (pts : List CardDataPoint) (r j : ℕ)
    (hr : r < pts.length)
    (hj : j < minRowLen (informationHeights measureW fh cw pts)) :
    calculateMultiLineTextHeight measureW
        (jsValToString
          ((pts.getD r ⟨JSVal.null, [], [], JSVal.null, true⟩).values.getD j JSVal.null))
        cw fh
      ≤ (longestHeights measureW fh cw pts).getD j 0 := by
  set dflt : CardDataPoint := ⟨JSVal.null, [], [], JSVal.null, true⟩ with hdflt
  set M := informationHeights measureW fh cw pts with hMdef
  have hMlen : M.length = pts.length := List.length_map _ _
  have hrM : r < M.length := by
    rw [hMlen]
    exact hr
  have hMne : M ≠ [] := by
    intro hnil
    rw [hnil] at hMlen
    simp at hMlen
    omega
  have hMr : M.getD r [] = ((pts.getD r dflt).values).map
      (fun v => calculateMultiLineTextHeight measureW (jsValToString v) cw fh) := by
    rw [List.getD_eq_getElem _ _ hrM, List.getD_eq_getElem _ _ hr]
    simp [hMdef, informationHeights, calculateInformationHeights]
  have hjv : j < ((pts.getD r dflt).values).length := by
    have h1 : minRowLen M ≤ (M.getD r []).length := by
      apply minRowLen_le
      rw [List.getD_eq_getElem _ _ hrM]
      exact List.getElem_mem _
    rw [hMr, List.length_map] at h1
    omega
  have hjmap : j < (((pts.getD r dflt).values).map
      (fun v => calculateMultiLineTextHeight measureW (jsValToString v) cw fh)).length := by
    rw [List.length_map]
    exact hjv
  have hentry : (M.getD r []).getD j 0
      = calculateMultiLineTextHeight measureW
          (jsValToString (((pts.getD r dflt).values).getD j JSVal.null)) cw fh := by
    rw [hMr, List.getD_eq_getElem _ _ hjmap, List.getElem_map,
      List.getD_eq_getElem _ _ hjv]
  have hmem : (M.getD r []).getD j 0 ∈ M.map (fun row => row.getD j 0) := by
    apply List.mem_map.2
    refine ⟨M.getD r [], ?_, rfl⟩
    rw [List.getD_eq_getElem _ _ hrM]
    exact List.getElem_mem _
  have hLH : longestHeights measureW fh cw pts = (d3transpose M).map longestReduce := rfl
  rw [hLH, d3transpose_ne_nil M hMne, List.map_map]
  have hjlen : j < ((List.range (minRowLen M)).map
      (longestReduce ∘ fun i => M.map (fun row => row.getD i 0))).length := by
    rw [List.length_map, List.length_range]
    exact hj
  rw [List.getD_eq_getElem _ _ hjlen, List.getElem_map, List.getElem_range]
  rw [← hentry]
  exact mem_le_longestReduce _ _ hmem

/-- C1 (counterexample): with two records whose single values both wrap to
height 10, the shared row height computed by the reducer is 12, which is not
the maximum (10) of the individual wrapped heights. -/
theorem c1_counterexample :
    longestHeights constWidth10 10 100 [samplePoint, samplePoint] = [12]
    ∧ informationHeights constWidth10 10 100 [samplePoint, samplePoint] = [[10], [10]]
    ∧ (12 : ℚ) ∉ ([10, 10] : List ℚ) := by
  have hmc : maxCharsPerLineJS ((['a', 'b'] : List Char)).length 100
      (constWidth10 ['a', 'b']) = JSNum.fin 19 := by
    norm_num [maxCharsPerLineJS, jsDiv, jsMulNat, jsFloor, jsSub1, constWidth10]
  have hline : separateTextInLines ['a', 'b']
      (maxCharsPerLineJS ((['a', 'b'] : List Char)).length 100 (constWidth10 ['a', 'b']))
      = [['a', 'b']] := by
    rw [hmc]
    decide
  have hh : calculateMultiLineTextHeight constWidth10 ['a', 'b'] 100 10 = 10 := by
    simp only [calculateMultiLineTextHeight, hline, List.length_singleton]
    norm_num
  have hM : informationHeights constWidth10 10 100 [samplePoint, samplePoint] = [[10], [10]] := by
    have hM0 : informationHeights constWidth10 10 100 [samplePoint, samplePoint]
        = [[calculateMultiLineTextHeight constWidth10 ['a', 'b'] 100 10],
           [calculateMultiLineTextHeight constWidth10 ['a', 'b'] 100 10]] := rfl
    rw [hM0, hh]
  refine ⟨?_, hM, by decide⟩
  have hLH : longestHeights constWidth10 10 100 [samplePoint, samplePoint]
      = (d3transpose (informationHeights constWidth10 10 100 [samplePoint, samplePoint])).map
          longestReduce := rfl
  rw [hLH, hM]
  have hmin : minRowLen [[(10:ℚ)], [10]] = 1 := by decide
  have ht : d3transpose [[(10:ℚ)], [10]] = [[10, 10]] := by
    rw [d3transpose_ne_nil _ (by simp), hmin]
    decide
  have hred : longestReduce [(10:ℚ), 10] = 12 := by
    show (if (10:ℚ) > 10 then (10:ℚ) + 2 else 10 + 2) = 12
    norm_num
  rw [ht]
  simp [hred]

/-- Witness for C1 (amended) at two concrete records. -/
theorem c1_rowHeight_upper_bound_witness :
    calculateMultiLineTextHeight constWidth10
        (jsValToString
          ((([samplePoint, samplePoint].getD 0 ⟨JSVal.null, [], [], JSVal.null, true⟩).values).getD
            0 JSVal.null))
        100 10
      ≤ (longestHeights constWidth10 10 100 [samplePoint, samplePoint]).getD 0 0 :=
  c1_rowHeight_upper_bound constWidth10 10 100 [samplePoint, samplePoint] 0 0
    (by decide) (by decide)

/-! ## C9 — round trip of line splitting -/

/-- `chunkListAux` of the empty word is empty for any fuel. -/
lemma chunkListAux_nil (fuel m : ℕ) : chunkListAux fuel m [] = [] := by
  cases fuel <;> rfl

/-- A nonempty word no longer than the budget is chunked to itself. -/
lemma chunkList_eq_self (w : List Char) (m : ℕ) (hw : w ≠ []) (hlen : w.length ≤ m) :
    chunkList m w = [w] := by
  cases w with
  | nil => exact absurd rfl hw
  | cons c cs =>
    have h1 : chunkList m (c :: cs)
        = (c :: cs).take m :: chunkListAux cs.length m ((c :: cs).drop m) := rfl
    rw [h1, List.take_of_length_le hlen, List.drop_eq_nil_of_le hlen, chunkListAux_nil]

/-- A word free of line terminators is (when nonempty) a single maximal
non-terminator run. -/
lemma nonTermRunsAux_all (w : List Char) :
    (∀ c ∈ w, isLineTerminator c = false) →
    ∀ cur : List Char, nonTermRunsAux w cur
      = if cur.reverse ++ w = [] then [] else [cur.reverse ++ w] := by
  induction w with
  | nil =>
    intro _ cur
    simp [nonTermRunsAux]
  | cons c cs ih =>
    intro hall cur
    have hc : isLineTerminator c = false := hall c (List.mem_cons_self _ _)
    simp only [nonTermRunsAux, hc, Bool.false_eq_true, if_false]
    rw [ih (fun x hx => hall x (List.mem_cons_of_mem _ hx)) (c :: cur)]
    simp

lemma nonTermRuns_all (w : List Char) (hw : w ≠ [])
    (hterm : ∀ c ∈ w, isLineTerminator c = false) :
    nonTermRuns w = [w] := by
  unfold nonTermRuns
  rw [nonTermRunsAux_all w hterm []]
  simp [hw]

/-- A nonempty word no longer than a positive integer budget and free of line
terminators passes through the regex match unchanged. -/
lemma matchChunks_nat (m : ℕ) (hm : 1 ≤ m) (w : List Char) (hw : w ≠ [])
    (hlen : w.length ≤ m) (hterm : ∀ c ∈ w, isLineTerminator c = false) :
    matchChunks (JSNum.fin (m : ℚ)) w = [w] := by
  have h1 : (1 : ℚ) ≤ (m : ℚ) := by exact_mod_cast hm
  have hruns : nonTermRuns w = [w] := nonTermRuns_all w hw hterm
  show (if (1 : ℚ) ≤ (m : ℚ) then
          if nonTermRuns w = [] then [nullWord]
          else ((nonTermRuns w).map (chunkList (⌊(m : ℚ)⌋).toNat)).foldl (· ++ ·) []
        else [nullWord]) = [w]
  rw [if_pos h1, hruns, if_neg (List.cons_ne_nil _ _), Int.floor_natCast,
    Int.toNat_natCast]
  simp [chunkList_eq_self w m hw hlen]

/-- Splitting the text into words never yields an empty list of words. -/
lemma splitOnSpaceAux_ne_nil (t : List Char) : ∀ cur, splitOnSpaceAux t cur ≠ [] := by
  induction t with
  | nil =>
    intro cur
    simp [splitOnSpaceAux]
  | cons c cs ih =>
    intro cur
    by_cases hc : c = ' '
    · simp [splitOnSpaceAux, hc]
    · simp only [splitOnSpaceAux, if_neg hc]
      exact ih _

lemma splitOnSpace_ne_nil (t : List Char) : splitOnSpace t ≠ [] :=
  splitOnSpaceAux_ne_nil t []

/-- The word-flattening `reduce((acc, w) => acc.concat(w), [])` over a map
whose steps all return singletons reproduces the word list. -/
lemma foldl_append_words (f : List Char → List (List Char)) :
    ∀ (ws : List (List Char)) (acc : List (List Char)),
      (∀ w ∈ ws, f w = [w]) → (ws.map f).foldl (· ++ ·) acc = acc ++ ws := by
  intro ws
  induction ws with
  | nil =>
    intro acc _
    simp
  | cons w ws ih =>
    intro acc hf
    rw [List.map_cons, List.foldl_cons, hf w (List.mem_cons_self _ _),
      ih _ (fun x hx => hf x (List.mem_cons_of_mem _ hx))]
    simp

/-- Gluing a (possibly empty) line prefix onto a joined suffix with a space. -/
def glue (a b : List Char) : List Char :=
  if a = [] then b else a ++ ' ' :: b

/-- `joinSp` of a cons with a nonempty tail. -/
lemma joinSp_cons_ne (l : List Char) (ls : List (List Char)) (h : ls ≠ []) :
    joinSp (l :: ls) = l ++ ' ' :: joinSp ls := by
  cases ls with
  | nil => exact absurd rfl h
  | cons a t => rfl

/-- The loop invariant of `linesLoop`: for a nonempty word list whose words
are all nonempty, and a building line that is empty or a space followed by a
nonempty line, the nonempty produced lines joined with spaces are the pending
building-line content glued onto the words joined with spaces. -/
lemma linesLoop_glue (m : JSNum) :
    ∀ (ws : List (List Char)), (∀ w ∈ ws, w ≠ []) →
      ∀ (bl : List Char), (bl = [] ∨ ∃ s, s ≠ [] ∧ bl = ' ' :: s) →
      ws ≠ [] →
      ((linesLoop m bl ws).filter (fun l => l ≠ []) ≠ []
       ∧ joinSp ((linesLoop m bl ws).filter (fun l => l ≠ []))
         = glue (bl.drop 1) (joinSp ws)) := by
  intro ws
  induction ws with
  | nil =>
    intro _ _ _ h
    exact absurd rfl h
  | cons w ws ih =>
    intro hall bl hbl _
    have hw : w ≠ [] := hall w (List.mem_cons_self _ _)
    cases ws with
    | nil =>
      simp only [linesLoop]
      split_ifs with hb
      · rcases hbl with rfl | ⟨s, hs, rfl⟩
        · simp [joinSp, glue, hw]
        · simp [joinSp, glue, hw, hs]
      · rcases hbl with rfl | ⟨s, hs, rfl⟩
        · simp [joinSp, glue, hw]
        · simp [joinSp, glue, hw, hs]
    | cons w2 rest =>
      have hall2 : ∀ x ∈ w2 :: rest, x ≠ [] :=
        fun x hx => hall x (List.mem_cons_of_mem _ hx)
      simp only [linesLoop]
      split_ifs with hb
      · obtain ⟨hne, hjoin⟩ :=
          ih hall2 (' ' :: w) (Or.inr ⟨w, hw, rfl⟩) (List.cons_ne_nil _ _)
        rcases hbl with rfl | ⟨s, hs, rfl⟩
        · simp only [List.drop_nil]
          rw [List.filter_cons_of_neg (by simp)]
          refine ⟨hne, ?_⟩
          rw [hjoin, joinSp_cons_ne w (w2 :: rest) (List.cons_ne_nil _ _)]
          simp [glue, hw]
        · simp only [List.drop_succ_cons, List.drop_zero]
          rw [List.filter_cons_of_pos (by simp [hs])]
          constructor
          · simp
          · rw [joinSp_cons_ne s _ hne, hjoin,
              joinSp_cons_ne w (w2 :: rest) (List.cons_ne_nil _ _)]
            simp [glue, hw, hs]
      · rcases hbl with rfl | ⟨s, hs, rfl⟩
        · obtain ⟨hne, hjoin⟩ :=
            ih hall2 ([] ++ ' ' :: w) (Or.inr ⟨w, hw, rfl⟩) (List.cons_ne_nil _ _)
          refine ⟨hne, ?_⟩
          rw [hjoin]
          simp only [List.nil_append, List.drop_succ_cons, List.drop_zero,
            List.drop_nil, glue, if_neg hw]
          rw [joinSp_cons_ne w (w2 :: rest) (List.cons_ne_nil _ _)]
          simp
        · have hinv : ((' ' :: s : List Char) ++ ' ' :: w = [] ∨
              ∃ u, u ≠ [] ∧ (' ' :: s : List Char) ++ ' ' :: w = ' ' :: u) :=
            Or.inr ⟨s ++ ' ' :: w, by simp, by simp⟩
          obtain ⟨hne, hjoin⟩ := ih hall2 ((' ' :: s) ++ ' ' :: w) hinv (List.cons_ne_nil _ _)
          refine ⟨hne, ?_⟩
          rw [hjoin]
          have hds : (((' ' :: s : List Char) ++ ' ' :: w).drop 1) = s ++ ' ' :: w := by
            simp
          rw [hds]
          simp only [List.drop_succ_cons, List.drop_zero, glue, if_neg hs,
            if_neg (by simp : ¬(s ++ ' ' :: w = ([] : List Char)))]
          rw [joinSp_cons_ne w (w2 :: rest) (List.cons_ne_nil _ _)]
          simp

/-- C9 (amended): for every integer budget `m ≥ 1` and every text whose words
are all nonempty (no leading, trailing or consecutive spaces), no longer than
the budget, and free of line terminators (which the regex dot cannot match),
joining the lines produced by `separateTextInLines` with single spaces
reproduces the words of the text, in order, with no loss or duplication. -/
theorem c9_roundtrip (text : List Char) (m : ℕ) (hm : 1 ≤ m)
    (hw : ∀ w ∈ splitOnSpace text,
      w ≠ [] ∧ w.length ≤ m ∧ ∀ c ∈ w, isLineTerminator c = false) :
    joinSp (separateTextInLines text (JSNum.fin (m : ℚ)))
      = joinSp (splitOnSpace text) := by
  unfold separateTextInLines
  have hwords : ((splitOnSpace text).map (matchChunks (JSNum.fin (m : ℚ)))).foldl (· ++ ·) []
      = splitOnSpace text := by
    have h := foldl_append_words (matchChunks (JSNum.fin (m : ℚ))) (splitOnSpace text) []
      (fun w hmem => matchChunks_nat m hm w (hw w hmem).1 (hw w hmem).2.1 (hw w hmem).2.2)
    simpa using h
  rw [hwords]
  have h := linesLoop_glue (JSNum.fin (m : ℚ)) (splitOnSpace text)
    (fun w hmem => (hw w hmem).1) [] (Or.inl rfl) (splitOnSpace_ne_nil text)
  rw [h.2]
  simp [glue]

/-- C9 (counterexample): the claim fails for texts with consecutive spaces:
for `"a  b"` (words `a`, `ε`, `b`, none longer than the budget 10, no
hard-splits) the empty middle word fails the regex match, `concat` appends
the JavaScript `null`, and the loop stringifies it, producing the line
`"a null b"` — joining the output does not reproduce the normalized text
`"a b"`: the word `null` is gained. -/
theorem c9_counterexample :
    separateTextInLines ['a', ' ', ' ', 'b'] (JSNum.fin 10)
      = [['a', ' ', 'n', 'u', 'l', 'l', ' ', 'b']]
    ∧ joinSp (separateTextInLines ['a', ' ', ' ', 'b'] (JSNum.fin 10))
      ≠ joinSp [['a'], ['b']]
    ∧ (∀ w ∈ splitOnSpace ['a', ' ', ' ', 'b'], w.length ≤ 10) := by
  decide

/-- The regex dot does not match line terminators: a space-separated word
consisting only of a newline fails the match, `concat` appends the null, and
the produced line contains the stringified `null` — so texts with
line-terminator words fall outside the round trip, as the source behaves. -/
lemma separateTextInLines_newline_word :
    separateTextInLines ['a', ' ', '\n', ' ', 'b'] (JSNum.fin 10)
      = [['a', ' ', 'n', 'u', 'l', 'l', ' ', 'b']] := by
  decide

/-- A newline inside a word splits it into separately matched runs, which the
loop then joins with a space: `"a\nb"` wraps to the line `"a b"`. -/
lemma separateTextInLines_newline_inside :
    separateTextInLines ['a', '\n', 'b'] (JSNum.fin 10) = [['a', ' ', 'b']] := by
  decide

/-- Witness for C9 (amended) on the two-word text `"ab c"` with budget 5. -/
theorem c9_roundtrip_witness :
    joinSp (separateTextInLines ['a', 'b', ' ', 'c'] (JSNum.fin ((5 : ℕ) : ℚ)))
      = joinSp (splitOnSpace ['a', 'b', ' ', 'c']) :=
  c9_roundtrip ['a', 'b', ' ', 'c'] 5 (by norm_num) (by decide)
